import Mathlib

/-!
Verification of the turtle-graphics engine (`src/lib.rs`).

The Rust code is embedded shallowly:

* `f32` scalars become an arbitrary `LinearOrderedField α` (exact arithmetic);
  the trigonometric primitives `sin`, `cos` and the constant `PI` are not
  algebraic, so they are passed in as an explicit `Trig α` bundle of functions.
  Every theorem below is universally quantified over that bundle, hence holds
  in particular for the real sine/cosine.
* Rust `Vec` used as a stack (`states`, `paths`): the embedding keeps the TOP
  (Rust `last()`) at the HEAD of a Lean `List`, so `Vec::push` is cons and
  `Vec::last` is `head?`.  The serializers iterate the paths oldest-first,
  which is `List.reverse` of this representation.
* Every `unwrap()` that can panic (and the out-of-bounds index in `move_to`)
  is modelled by `Option`: `none` is a panic, `some` a normal return.
-/

/-- `Position(f32, f32)` from the source. -/
structure Position (α : Type) where
  x : α
  y : α
deriving DecidableEq

/-- `Position::origin`. -/
def Position.origin {α : Type} [LinearOrderedField α] : Position α := ⟨0, 0⟩

/-- `Position::min` (componentwise). -/
def Position.min {α : Type} [LinearOrderedField α] (p q : Position α) : Position α :=
  ⟨Min.min p.x q.x, Min.min p.y q.y⟩

/-- `Position::max` (componentwise). -/
def Position.max {α : Type} [LinearOrderedField α] (p q : Position α) : Position α :=
  ⟨Max.max p.x q.x, Max.max p.y q.y⟩

/-- `impl Add for Position`. -/
def Position.add {α : Type} [LinearOrderedField α] (p q : Position α) : Position α :=
  ⟨p.x + q.x, p.y + q.y⟩

/-- The trigonometric primitives the engine consumes (`sin_cos` and `PI`),
kept abstract so every definition stays executable. -/
structure Trig (α : Type) where
  sin : α → α
  cos : α → α
  pi : α

/-- `impl Into<Radiant> for Degree`: `angle * PI / 180`. -/
def degToRad {α : Type} [LinearOrderedField α] (T : Trig α) (deg : α) : α :=
  deg * T.pi / 180

/-- `TurtleState { pos, angle, pendown }`. -/
structure TurtleState (α : Type) where
  pos : Position α
  angle : α
  pendown : Bool
deriving DecidableEq

/-- `Canvas { states: Vec<TurtleState>, paths: Vec<Vec<Position>> }`;
head of each list is the most recent element (Rust `last()`). -/
structure Canvas (α : Type) where
  states : List (TurtleState α)
  paths : List (List (Position α))
deriving DecidableEq

/-- `Canvas::new`: one initial state (origin, heading 0 "upwards", pen down)
and one initial path holding the origin. -/
def Canvas.new {α : Type} [LinearOrderedField α] : Canvas α :=
  { states := [{ pos := Position.origin, angle := 0, pendown := true }],
    paths := [[Position.origin]] }

/-- `Canvas::current_state`: `states.last().unwrap()`; `none` models the
panic on an empty stack. -/
def Canvas.current_state {α : Type} (c : Canvas α) : Option (TurtleState α) :=
  c.states.head?

/-- `current_state_mut()` followed by a field update: mutates the top state
in place; `none` models the `unwrap` panic on an empty stack. -/
def Canvas.modifyTop {α : Type} (c : Canvas α) (f : TurtleState α → TurtleState α) :
    Option (Canvas α) :=
  match c.states with
  | [] => none
  | s :: rest => some { c with states := f s :: rest }

/-- `Canvas::direction`: reads the current state, converts the heading to
radians and returns `(-sin * d, cos * d)`. -/
def Canvas.direction {α : Type} [LinearOrderedField α] (T : Trig α) (c : Canvas α) (d : α) :
    Option (α × α) :=
  c.current_state.map fun s =>
    let rad := degToRad T s.angle
    (-T.sin rad * d, T.cos rad * d)

/-- `Canvas::line_to`: `paths.last_mut().unwrap().push(dst)`; `none` models
the panic when there is no path. -/
def Canvas.line_to {α : Type} (c : Canvas α) (dst : Position α) : Option (Canvas α) :=
  match c.paths with
  | [] => none
  | p :: rest => some { c with paths := (p ++ [dst]) :: rest }

/-- `Canvas::move_to`, the move-or-line policy: empty path list starts a new
path; a most-recent path of length > 1 is sealed and a new path `[dst]` is
pushed; otherwise element 0 of the most-recent path is overwritten with `dst`
(`none` models the index panic on a length-0 path, which `Canvas::new`
makes unreachable). -/
def Canvas.move_to {α : Type} (c : Canvas α) (dst : Position α) : Option (Canvas α) :=
  match c.paths with
  | [] => some { c with paths := [[dst]] }
  | p :: rest =>
    if 1 < p.length then
      some { c with paths := [dst] :: p :: rest }
    else
      match p with
      | [] => none
      | _ :: t => some { c with paths := (dst :: t) :: rest }

/-- `Turtle::forward` for `Canvas`: displacement from `direction`, destination
appended with `line_to` when the pen is down, position updated
unconditionally. -/
def Canvas.forward {α : Type} [LinearOrderedField α] (T : Trig α) (c : Canvas α) (d : α) :
    Option (Canvas α) :=
  (c.direction T d).bind fun dxy =>
    c.current_state.bind fun s =>
      let dst : Position α := ⟨s.pos.x + dxy.1, s.pos.y + dxy.2⟩
      (if s.pendown then c.line_to dst else some c).bind fun c' =>
        c'.modifyTop fun s' => { s' with pos := dst }

/-- `Turtle::rotate` for `Canvas`: `angle += input`. -/
def Canvas.rotate {α : Type} [LinearOrderedField α] (c : Canvas α) (a : α) :
    Option (Canvas α) :=
  c.modifyTop fun s => { s with angle := s.angle + a }

/-- `Turtle::move_forward` for `Canvas`: same displacement as `forward` but
always a `move_to` relocation. -/
def Canvas.move_forward {α : Type} [LinearOrderedField α] (T : Trig α) (c : Canvas α) (d : α) :
    Option (Canvas α) :=
  (c.direction T d).bind fun dxy =>
    c.current_state.bind fun s =>
      let dst : Position α := ⟨s.pos.x + dxy.1, s.pos.y + dxy.2⟩
      (c.move_to dst).bind fun c' =>
        c'.modifyTop fun s' => { s' with pos := dst }

/-- `Turtle::is_pen_down` for `Canvas`. -/
def Canvas.is_pen_down {α : Type} (c : Canvas α) : Option Bool :=
  c.current_state.map (·.pendown)

/-- `Turtle::pen_down` for `Canvas`: `move_to(current position)` then set the
flag. -/
def Canvas.pen_down {α : Type} (c : Canvas α) : Option (Canvas α) :=
  c.current_state.bind fun s =>
    (c.move_to s.pos).bind fun c' =>
      c'.modifyTop fun s' => { s' with pendown := true }

/-- `Turtle::pen_up` for `Canvas`: clear the flag, paths untouched. -/
def Canvas.pen_up {α : Type} (c : Canvas α) : Option (Canvas α) :=
  c.modifyTop fun s => { s with pendown := false }

/-- `Turtle::goto` for `Canvas`: set the position, then `move_to` the same
position. -/
def Canvas.goto {α : Type} (c : Canvas α) (p : Position α) : Option (Canvas α) :=
  (c.modifyTop fun s => { s with pos := p }).bind fun c' => c'.move_to p

/-- `Turtle::push` for `Canvas`: clone the current state and push the clone. -/
def Canvas.push {α : Type} (c : Canvas α) : Option (Canvas α) :=
  match c.states with
  | [] => none
  | s :: rest => some { c with states := s :: s :: rest }

/-- `Turtle::pop` for `Canvas`: `states.pop()` (a no-op on an empty `Vec`),
then `move_to(current_state().pos)`.  `none` models the `unwrap` panic of
`current_state` when the base state was just discarded. -/
def Canvas.pop {α : Type} (c : Canvas α) : Option (Canvas α) :=
  match c.states with
  | [] => none
  | _ :: rest =>
    match rest with
    | [] => none
    | s :: _ => Canvas.move_to { c with states := rest } s.pos

/-- The `Turtle` trait command surface, including the trait-default methods
`backward`, `right`, `left` and `home`. -/
inductive Cmd (α : Type) where
  | fwd (d : α)
  | bwd (d : α)
  | moveFwd (d : α)
  | rot (a : α)
  | turnRight (a : α)
  | turnLeft (a : α)
  | penDown
  | penUp
  | gotoPos (p : Position α)
  | homeCmd
  | pushState
  | popState

/-- One command step.  Trait defaults are expanded exactly as in the source:
`backward(d) = forward(-d)`, `right(a) = rotate(-a)`, `left(a) = rotate(a)`,
`home() = goto(origin)`. -/
def execCmd {α : Type} [LinearOrderedField α] (T : Trig α) (c : Canvas α) :
    Cmd α → Option (Canvas α)
  | .fwd d => c.forward T d
  | .bwd d => c.forward T (-d)
  | .moveFwd d => c.move_forward T d
  | .rot a => c.rotate a
  | .turnRight a => c.rotate (-a)
  | .turnLeft a => c.rotate a
  | .penDown => c.pen_down
  | .penUp => c.pen_up
  | .gotoPos p => c.goto p
  | .homeCmd => c.goto Position.origin
  | .pushState => c.push
  | .popState => c.pop

/-- Run a command list; `none` as soon as any step panics. -/
def runCmds {α : Type} [LinearOrderedField α] (T : Trig α) (c : Canvas α) :
    List (Cmd α) → Option (Canvas α)
  | [] => some c
  | k :: ks => (execCmd T c k).bind fun c' => runCmds T c' ks

/-- `Canvas::foreach_position` flattened to a list: every point of every path
in drawing order (oldest path first), scaled componentwise. -/
def allPositions {α : Type} [LinearOrderedField α] (sx sy : α) :
    List (List (Position α)) → List (Position α)
  | [] => []
  | p :: ps => p.map (fun q => ⟨q.x * sx, q.y * sy⟩) ++ allPositions sx sy ps

/-- `Bounds::add_position`: running componentwise min/max, `none` until the
first point. -/
def addPosition {α : Type} [LinearOrderedField α]
    (mm : Option (Position α × Position α)) (pos : Position α) :
    Option (Position α × Position α) :=
  some (match mm with
    | none => (pos, pos)
    | some a => (pos.min a.1, pos.max a.2))

/-- The bounds accumulated over a point list, exactly as the serializers
build them. -/
def computeBounds {α : Type} [LinearOrderedField α] (ps : List (Position α)) :
    Option (Position α × Position α) :=
  ps.foldl addPosition none

/-- `Bounds::width`: `|max.x - min.x|`. -/
def boundsWidth {α : Type} [LinearOrderedField α] (b : Position α × Position α) : α :=
  |b.2.x - b.1.x|

/-- `Bounds::height`: `|max.y - min.y|`. -/
def boundsHeight {α : Type} [LinearOrderedField α] (b : Position α × Position α) : α :=
  |b.2.y - b.1.y|

/-- The structured content of the SVG document `save_svg` writes: the
`viewBox` numbers, the stroke width, and one entry per emitted `<path>`
element (the `M` point and the list of `L` points, already y-flipped). -/
structure SvgDoc (α : Type) where
  viewBox : α × α × α × α
  strokeWidth : α
  pathElems : List (Position α × List (Position α))
deriving DecidableEq

/-- The structured content of the EPS document `save_eps` writes: the
`%%BoundingBox` numbers (llx, lly, urx, ury), the `setlinewidth` value, and
one entry per `newpath … stroke` group (the `moveto` point and the list of
`lineto` points). -/
structure EpsDoc (α : Type) where
  boundingBox : α × α × α × α
  strokeWidth : α
  strokes : List (Position α × List (Position α))
deriving DecidableEq

/-- `path.split_first()` driving the SVG emission loop: a `<path>` element is
produced for every nonempty path, its head y-negated for the `M` command and
each tail point y-negated for an `L` command. -/
def svgElem {α : Type} [LinearOrderedField α] (p : List (Position α)) :
    Option (Position α × List (Position α)) :=
  match p with
  | [] => none
  | h :: t => some (⟨h.x, -1 * h.y⟩, t.map fun q => ⟨q.x, -1 * q.y⟩)

/-- `path.split_first()` driving the EPS emission loop: one
`newpath/moveto/…/stroke` group per nonempty path, coordinates unchanged. -/
def epsStroke {α : Type} (p : List (Position α)) :
    Option (Position α × List (Position α)) :=
  match p with
  | [] => none
  | h :: t => some (h, t)

/-- `Canvas::save_svg` as structured data.  Bounds are accumulated over every
point with `scale_y = -1`; width/height are clamped to the 100 minimum; the
viewBox is the 10%-padded top-left corner with `1.2 * size`; stroke width is
`1.2 * max(width, height) / 1000`.  `none` models the `unwrap` panic of the
bounds accessors when no point was recorded. -/
def Canvas.save_svg {α : Type} [LinearOrderedField α] (c : Canvas α) : Option (SvgDoc α) :=
  match computeBounds (allPositions 1 (-1) c.paths.reverse) with
  | none => none
  | some b =>
    let width := Max.max (boundsWidth b) 100
    let height := Max.max (boundsHeight b) 100
    let border : α := 1 / 10
    let topLeft : Position α := ⟨b.1.x - border * width, b.1.y - border * height⟩
    let scale : α := 1 + 2 * border
    some { viewBox := (topLeft.x, topLeft.y, scale * width, scale * height),
           strokeWidth := scale * Max.max width height / 1000,
           pathElems := c.paths.reverse.filterMap svgElem }

/-- `Canvas::save_eps` as structured data.  Bounds use the native y axis; the
`%%BoundingBox` pads 10% of the clamped size on each side of the raw extent;
stroke width is `1.2 * max(width, height) / 1000`. -/
def Canvas.save_eps {α : Type} [LinearOrderedField α] (c : Canvas α) : Option (EpsDoc α) :=
  match computeBounds (allPositions 1 1 c.paths.reverse) with
  | none => none
  | some b =>
    let width := Max.max (boundsWidth b) 100
    let height := Max.max (boundsHeight b) 100
    let border : α := 1 / 10
    let scale : α := 1 + 2 * border
    some { boundingBox := (b.1.x - border * width, b.1.y - border * height,
                           b.2.x + border * width, b.2.y + border * height),
           strokeWidth := scale * Max.max width height / 1000,
           strokes := c.paths.reverse.filterMap epsStroke }

/-- Total number of drawn line segments over all paths: a path of `n` points
holds `n - 1` segments. -/
def segCount {α : Type} (paths : List (List (Position α))) : Nat :=
  (paths.map fun p => p.length - 1).sum

/-- A trig bundle over `ℚ` agreeing with real sine/cosine at angle zero
(`sin 0 = 0`, `cos 0 = 1`), used to evaluate concrete runs whose headings
stay at the initial 0 degrees. -/
def ratTrig : Trig ℚ :=
  { sin := fun _ => 0, cos := fun _ => 1, pi := 0 }

/-- Number of nonempty paths in a path list. -/
def nonemptyCount {α : Type} (paths : List (List (Position α))) : Nat :=
  (paths.filter fun p => !p.isEmpty).length

/-- Invariant on the path list: nonempty, and no path is empty. -/
def PathsInv {α : Type} (ps : List (List (Position α))) : Prop :=
  ps ≠ [] ∧ ∀ p ∈ ps, p ≠ []

/-- The canvas invariant maintained by every reachable state: a nonempty
state stack, a nonempty path list, and no empty path. -/
def CanvasInv {α : Type} (c : Canvas α) : Prop :=
  c.states ≠ [] ∧ PathsInv c.paths

/-! ### Helper lemmas -/

theorem move_to_states {α : Type} (c : Canvas α) (q : Position α) (c' : Canvas α)
    (h : c.move_to q = some c') : c'.states = c.states := by
  unfold Canvas.move_to at h
  split at h
  · cases h; rfl
  · split at h
    · cases h; rfl
    · split at h
      · cases h
      · cases h; rfl

theorem move_to_spec {α : Type} (c : Canvas α) (q : Position α) (h : PathsInv c.paths) :
    ∃ c', c.move_to q = some c' ∧ c'.states = c.states ∧ PathsInv c'.paths := by
  obtain ⟨hne, hall⟩ := h
  rcases hp : c.paths with _ | ⟨p, rest⟩
  · exact absurd hp hne
  have hpne : p ≠ [] := hall p (by rw [hp]; exact List.mem_cons_self p rest)
  rcases p with _ | ⟨x, t⟩
  · exact absurd rfl hpne
  rcases t with _ | ⟨y, t⟩
  · refine ⟨{ c with paths := [q] :: rest }, ?_, rfl, by simp, ?_⟩
    · simp [Canvas.move_to, hp]
    · intro r hr
      simp only [List.mem_cons] at hr
      rcases hr with rfl | hr
      · simp
      · exact hall r (by rw [hp]; exact List.mem_cons_of_mem _ hr)
  · refine ⟨{ c with paths := [q] :: (x :: y :: t) :: rest }, ?_, rfl, by simp, ?_⟩
    · simp [Canvas.move_to, hp]
    · intro r hr
      simp only [List.mem_cons] at hr
      rcases hr with rfl | rfl | hr
      · simp
      · simp
      · exact hall r (by rw [hp]; exact List.mem_cons_of_mem _ hr)

theorem line_to_spec {α : Type} (c : Canvas α) (q : Position α) (h : PathsInv c.paths) :
    ∃ c', c.line_to q = some c' ∧ c'.states = c.states ∧ PathsInv c'.paths := by
  obtain ⟨hne, hall⟩ := h
  rcases hp : c.paths with _ | ⟨p, rest⟩
  · exact absurd hp hne
  refine ⟨{ c with paths := (p ++ [q]) :: rest }, ?_, rfl, by simp, ?_⟩
  · unfold Canvas.line_to
    rw [hp]
  · intro r hr
    simp only [List.mem_cons] at hr
    rcases hr with rfl | hr
    · simp
    · exact hall r (by rw [hp]; exact List.mem_cons_of_mem _ hr)

theorem modifyTop_spec {α : Type} (c : Canvas α) (f : TurtleState α → TurtleState α)
    (h : c.states ≠ []) :
    ∃ c', c.modifyTop f = some c' ∧ c'.paths = c.paths ∧ c'.states ≠ [] := by
  rcases hs : c.states with _ | ⟨s, rest⟩
  · exact absurd hs h
  exact ⟨{ c with states := f s :: rest }, by unfold Canvas.modifyTop; rw [hs], rfl, by simp⟩

theorem modifyTop_paths {α : Type} (c : Canvas α) (f : TurtleState α → TurtleState α)
    (c' : Canvas α) (h : c.modifyTop f = some c') : c'.paths = c.paths ∧ c'.states ≠ [] := by
  unfold Canvas.modifyTop at h
  split at h
  · cases h
  · cases h; exact ⟨rfl, by simp⟩

theorem canvasInv_new {α : Type} [LinearOrderedField α] : CanvasInv (Canvas.new : Canvas α) := by
  refine ⟨by simp [Canvas.new], by simp [Canvas.new], ?_⟩
  intro p hp
  simp [Canvas.new] at hp
  simp [hp]

theorem move_to_inv {α : Type} (c : Canvas α) (q : Position α) (c' : Canvas α)
    (h : c.move_to q = some c') (hp : PathsInv c.paths) :
    c'.states = c.states ∧ PathsInv c'.paths := by
  obtain ⟨c'', e, hst, hinv⟩ := move_to_spec c q hp
  rw [e] at h
  cases h
  exact ⟨hst, hinv⟩

theorem line_to_inv {α : Type} (c : Canvas α) (q : Position α) (c' : Canvas α)
    (h : c.line_to q = some c') (hp : PathsInv c.paths) :
    c'.states = c.states ∧ PathsInv c'.paths := by
  obtain ⟨c'', e, hst, hinv⟩ := line_to_spec c q hp
  rw [e] at h
  cases h
  exact ⟨hst, hinv⟩

theorem forward_inv {α : Type} [LinearOrderedField α] (T : Trig α) (c : Canvas α) (d : α)
    (c' : Canvas α) (h : c.forward T d = some c') (hc : CanvasInv c) : CanvasInv c' := by
  obtain ⟨hs, hp⟩ := hc
  rcases hst : c.states with _ | ⟨s, rest⟩
  · exact absurd hst hs
  have hcs : c.current_state = some s := by simp [Canvas.current_state, hst]
  simp only [Canvas.forward, Canvas.direction, hcs, Option.map_some', Option.some_bind] at h
  rcases Option.bind_eq_some.mp h with ⟨c₁, h1, h2⟩
  obtain ⟨hpaths, hne⟩ := modifyTop_paths c₁ _ c' h2
  cases hpen : s.pendown
  · rw [hpen, if_neg (by simp)] at h1
    cases h1
    exact ⟨hne, hpaths ▸ hp⟩
  · rw [hpen, if_pos rfl] at h1
    obtain ⟨_, hinv⟩ := line_to_inv c _ c₁ h1 hp
    exact ⟨hne, hpaths ▸ hinv⟩

theorem move_forward_inv {α : Type} [LinearOrderedField α] (T : Trig α) (c : Canvas α) (d : α)
    (c' : Canvas α) (h : c.move_forward T d = some c') (hc : CanvasInv c) : CanvasInv c' := by
  obtain ⟨hs, hp⟩ := hc
  rcases hst : c.states with _ | ⟨s, rest⟩
  · exact absurd hst hs
  have hcs : c.current_state = some s := by simp [Canvas.current_state, hst]
  simp only [Canvas.move_forward, Canvas.direction, hcs, Option.map_some', Option.some_bind] at h
  rcases Option.bind_eq_some.mp h with ⟨c₁, h1, h2⟩
  obtain ⟨hpaths, hne⟩ := modifyTop_paths c₁ _ c' h2
  obtain ⟨_, hinv⟩ := move_to_inv c _ c₁ h1 hp
  exact ⟨hne, hpaths ▸ hinv⟩

theorem pen_down_inv {α : Type} (c : Canvas α) (c' : Canvas α)
    (h : c.pen_down = some c') (hc : CanvasInv c) : CanvasInv c' := by
  obtain ⟨hs, hp⟩ := hc
  rcases hst : c.states with _ | ⟨s, rest⟩
  · exact absurd hst hs
  have hcs : c.current_state = some s := by simp [Canvas.current_state, hst]
  simp only [Canvas.pen_down, hcs, Option.some_bind] at h
  rcases Option.bind_eq_some.mp h with ⟨c₁, h1, h2⟩
  obtain ⟨hpaths, hne⟩ := modifyTop_paths c₁ _ c' h2
  obtain ⟨_, hinv⟩ := move_to_inv c _ c₁ h1 hp
  exact ⟨hne, hpaths ▸ hinv⟩

theorem goto_inv {α : Type} (c : Canvas α) (q : Position α) (c' : Canvas α)
    (h : c.goto q = some c') (hc : CanvasInv c) : CanvasInv c' := by
  obtain ⟨hs, hp⟩ := hc
  simp only [Canvas.goto] at h
  rcases Option.bind_eq_some.mp h with ⟨c₁, h1, h2⟩
  obtain ⟨hpaths, hne⟩ := modifyTop_paths c _ c₁ h1
  obtain ⟨hst, hinv⟩ := move_to_inv c₁ q c' h2 (hpaths ▸ hp)
  exact ⟨hst ▸ hne, hinv⟩

theorem push_inv {α : Type} (c : Canvas α) (c' : Canvas α)
    (h : c.push = some c') (hc : CanvasInv c) : CanvasInv c' := by
  obtain ⟨hs, hp⟩ := hc
  unfold Canvas.push at h
  split at h
  · cases h
  · cases h
    exact ⟨by simp, hp⟩

theorem pop_inv {α : Type} (c : Canvas α) (c' : Canvas α)
    (h : c.pop = some c') (hc : CanvasInv c) : CanvasInv c' := by
  obtain ⟨hs, hp⟩ := hc
  unfold Canvas.pop at h
  split at h
  · cases h
  · split at h
    · cases h
    · obtain ⟨hst, hinv⟩ := move_to_inv _ _ c' h hp
      refine ⟨?_, hinv⟩
      rw [hst]
      simp

theorem execCmd_inv {α : Type} [LinearOrderedField α] (T : Trig α) (c : Canvas α) (k : Cmd α)
    (c' : Canvas α) (h : execCmd T c k = some c') (hc : CanvasInv c) : CanvasInv c' := by
  cases k with
  | fwd d => exact forward_inv T c d c' h hc
  | bwd d => exact forward_inv T c (-d) c' h hc
  | moveFwd d => exact move_forward_inv T c d c' h hc
  | rot a =>
    obtain ⟨hpaths, hne⟩ := modifyTop_paths c _ c' h
    exact ⟨hne, hpaths ▸ hc.2⟩
  | turnRight a =>
    obtain ⟨hpaths, hne⟩ := modifyTop_paths c _ c' h
    exact ⟨hne, hpaths ▸ hc.2⟩
  | turnLeft a =>
    obtain ⟨hpaths, hne⟩ := modifyTop_paths c _ c' h
    exact ⟨hne, hpaths ▸ hc.2⟩
  | penDown => exact pen_down_inv c c' h hc
  | penUp =>
    obtain ⟨hpaths, hne⟩ := modifyTop_paths c _ c' h
    exact ⟨hne, hpaths ▸ hc.2⟩
  | gotoPos p => exact goto_inv c p c' h hc
  | homeCmd => exact goto_inv c Position.origin c' h hc
  | pushState => exact push_inv c c' h hc
  | popState => exact pop_inv c c' h hc

theorem runCmds_inv {α : Type} [LinearOrderedField α] (T : Trig α) (cmds : List (Cmd α)) :
    ∀ c c' : Canvas α, runCmds T c cmds = some c' → CanvasInv c → CanvasInv c' := by
  induction cmds with
  | nil =>
    intro c c' h hc
    cases h
    exact hc
  | cons k ks ih =>
    intro c c' h hc
    simp only [runCmds] at h
    rcases Option.bind_eq_some.mp h with ⟨c₁, h1, h2⟩
    exact ih c₁ c' h2 (execCmd_inv T c k c₁ h1 hc)

theorem reachable_inv {α : Type} [LinearOrderedField α] (T : Trig α) (cmds : List (Cmd α))
    (c : Canvas α) (h : runCmds T Canvas.new cmds = some c) : CanvasInv c :=
  runCmds_inv T cmds Canvas.new c h canvasInv_new

theorem length_filterMap_svgElem {α : Type} [LinearOrderedField α]
    (l : List (List (Position α))) :
    (l.filterMap svgElem).length = nonemptyCount l := by
  induction l with
  | nil => rfl
  | cons p ps ih =>
    rcases p with _ | ⟨x, t⟩
    · simpa [svgElem, nonemptyCount, List.filter_cons] using ih
    · simpa [svgElem, nonemptyCount, List.filter_cons] using ih

theorem length_filterMap_epsStroke {α : Type} (l : List (List (Position α))) :
    (l.filterMap epsStroke).length = nonemptyCount l := by
  induction l with
  | nil => rfl
  | cons p ps ih =>
    rcases p with _ | ⟨x, t⟩
    · simpa [epsStroke, nonemptyCount, List.filter_cons] using ih
    · simpa [epsStroke, nonemptyCount, List.filter_cons] using ih

theorem nonemptyCount_reverse {α : Type} (l : List (List (Position α))) :
    nonemptyCount l.reverse = nonemptyCount l := by
  simp [nonemptyCount, List.filter_reverse]

theorem length_filterMap_svgElem_full {α : Type} [LinearOrderedField α]
    (l : List (List (Position α))) (h : ∀ p ∈ l, p ≠ []) :
    (l.filterMap svgElem).length = l.length := by
  induction l with
  | nil => rfl
  | cons p ps ih =>
    rcases p with _ | ⟨x, t⟩
    · exact absurd rfl (h [] (List.mem_cons_self _ _))
    · simpa [svgElem] using ih fun r hr => h r (List.mem_cons_of_mem _ hr)

theorem length_filterMap_epsStroke_full {α : Type} (l : List (List (Position α)))
    (h : ∀ p ∈ l, p ≠ []) :
    (l.filterMap epsStroke).length = l.length := by
  induction l with
  | nil => rfl
  | cons p ps ih =>
    rcases p with _ | ⟨x, t⟩
    · exact absurd rfl (h [] (List.mem_cons_self _ _))
    · simpa [epsStroke] using ih fun r hr => h r (List.mem_cons_of_mem _ hr)

theorem foldl_addPosition_isSome {α : Type} [LinearOrderedField α]
    (l : List (Position α)) :
    ∀ acc : Option (Position α × Position α), acc.isSome →
      (l.foldl addPosition acc).isSome := by
  induction l with
  | nil => intro acc h; exact h
  | cons p ps ih =>
    intro acc _
    exact ih (addPosition acc p) (by simp [addPosition])

theorem computeBounds_isSome {α : Type} [LinearOrderedField α]
    (ps : List (Position α)) (h : ps ≠ []) : (computeBounds ps).isSome := by
  rcases ps with _ | ⟨p, rest⟩
  · exact absurd rfl h
  unfold computeBounds
  rw [List.foldl_cons]
  exact foldl_addPosition_isSome rest _ (by simp [addPosition])

theorem allPositions_ne_nil {α : Type} [LinearOrderedField α] (sx sy : α) :
    ∀ l : List (List (Position α)), (∃ p ∈ l, p ≠ []) → allPositions sx sy l ≠ [] := by
  intro l hl
  induction l with
  | nil => simp at hl
  | cons p ps ih =>
    rcases p with _ | ⟨x, t⟩
    · obtain ⟨r, hr, hrne⟩ := hl
      simp only [List.mem_cons] at hr
      rcases hr with rfl | hr
      · exact absurd rfl hrne
      · simpa [allPositions] using ih ⟨r, hr, hrne⟩
    · simp [allPositions]

theorem foldl_addPosition_ordered {α : Type} [LinearOrderedField α]
    (l : List (Position α)) :
    ∀ (acc : Option (Position α × Position α)) (b : Position α × Position α),
      (∀ b₀, acc = some b₀ → b₀.1.x ≤ b₀.2.x ∧ b₀.1.y ≤ b₀.2.y) →
      l.foldl addPosition acc = some b → b.1.x ≤ b.2.x ∧ b.1.y ≤ b.2.y := by
  induction l with
  | nil =>
    intro acc b hacc h
    exact hacc b h
  | cons p ps ih =>
    intro acc b hacc h
    rw [List.foldl_cons] at h
    refine ih (addPosition acc p) b ?_ h
    intro b₀ hb₀
    rcases acc with _ | a
    · simp [addPosition] at hb₀
      simp [← hb₀]
    · obtain ⟨hx, hy⟩ := hacc a rfl
      simp [addPosition] at hb₀
      rw [← hb₀]
      constructor
      · exact le_trans (by simp [Position.min])
          (le_trans hx (by simp [Position.max]))
      · exact le_trans (by simp [Position.min])
          (le_trans hy (by simp [Position.max]))

theorem computeBounds_ordered {α : Type} [LinearOrderedField α]
    (ps : List (Position α)) (b : Position α × Position α)
    (h : computeBounds ps = some b) : b.1.x ≤ b.2.x ∧ b.1.y ≤ b.2.y :=
  foldl_addPosition_ordered ps none b (by intro b₀ hb₀; cases hb₀) h

/-! ### Claim theorems -/

/-- C1: the move-or-line path-segmentation policy.  For every canvas, a
pen-up relocation to `q` (the `move_to` routine shared by `goto`,
`move_forward`, `pen_down` and `pop`) appends a new single-point path `[q]`
when the most recent path has more than one point, and overwrites the single
anchor point in place when the most recent path has exactly one point; in
particular `pen_up(); goto(p1); goto(p2)` from a fresh canvas leaves exactly
one most-recent path holding the single point `p2`. -/
theorem move_to_policy {α : Type} [LinearOrderedField α] (c : Canvas α) (q : Position α) :
    (∀ p ps, c.paths = p :: ps → 1 < p.length →
        c.move_to q = some { c with paths := [q] :: p :: ps }) ∧
    (∀ p ps, c.paths = p :: ps → p.length = 1 →
        c.move_to q = some { c with paths := [q] :: ps }) ∧
    (∀ (T : Trig α) (p₁ p₂ : Position α),
        (runCmds T Canvas.new [Cmd.penUp, Cmd.gotoPos p₁, Cmd.gotoPos p₂]).map
          Canvas.paths = some [[p₂]]) := by
  refine ⟨?_, ?_, ?_⟩
  · intro p ps hp hlen
    simp [Canvas.move_to, hp, hlen]
  · intro p ps hp hlen
    rcases p with _ | ⟨x, t⟩
    · simp at hlen
    · have ht : t = [] := by simpa using hlen
      subst ht
      simp [Canvas.move_to, hp]
  · intro T p₁ p₂
    simp [runCmds, execCmd, Canvas.pen_up, Canvas.goto, Canvas.modifyTop,
          Canvas.move_to, Canvas.new, Position.origin]

/-- Witness for C1: sealing a two-point path by relocating to `(9, 9)`. -/
theorem move_to_policy_witness :
    Canvas.move_to ({ states := [], paths := [[⟨0, 0⟩, ⟨1, 1⟩]] } : Canvas ℚ) ⟨9, 9⟩
      = some { states := [], paths := [[⟨9, 9⟩], [⟨0, 0⟩, ⟨1, 1⟩]] } :=
  (move_to_policy ({ states := [], paths := [[⟨0, 0⟩, ⟨1, 1⟩]] } : Canvas ℚ) ⟨9, 9⟩).1
    [⟨0, 0⟩, ⟨1, 1⟩] [] rfl (by decide)

/-- C5 (code bug): `pop` on a fresh canvas, whose stack holds only the base
state, discards the base state unconditionally and then panics reading
`current_state` (modelled by `none`) instead of failing defensively. -/
theorem pop_discards_base :
    (Canvas.new : Canvas ℚ).states.length = 1 ∧
    Canvas.pop (Canvas.new : Canvas ℚ) = none := ⟨rfl, rfl⟩

/-- C6: on every reachable canvas, `push()` immediately followed by `pop()`
succeeds and restores the whole state stack, in particular position, heading
and pen state of the current state. -/
theorem push_pop_roundtrip {α : Type} [LinearOrderedField α] (T : Trig α)
    (cmds : List (Cmd α)) (c : Canvas α) (h : runCmds T Canvas.new cmds = some c) :
    ∃ c₂, c.push.bind Canvas.pop = some c₂ ∧
      c₂.states = c.states ∧ c₂.current_state = c.current_state := by
  obtain ⟨hs, hp⟩ := reachable_inv T cmds c h
  rcases hst : c.states with _ | ⟨s, rest⟩
  · exact absurd hst hs
  have hpush : c.push = some { c with states := s :: s :: rest } := by
    unfold Canvas.push
    rw [hst]
  obtain ⟨c₂, hmv, hs2, _⟩ := move_to_spec { c with states := s :: rest } s.pos (by simpa using hp)
  refine ⟨c₂, ?_, ?_, ?_⟩
  · rw [hpush, Option.some_bind]
    exact hmv
  · simp [hs2, hst]
  · simp [Canvas.current_state, hs2, hst]

/-- Witness for C6 at the fresh canvas. -/
theorem push_pop_roundtrip_witness :
    ∃ c₂, (Canvas.new : Canvas ℚ).push.bind Canvas.pop = some c₂ ∧
      c₂.states = (Canvas.new : Canvas ℚ).states ∧
      c₂.current_state = (Canvas.new : Canvas ℚ).current_state :=
  push_pop_roundtrip ratTrig [] Canvas.new rfl

/-- C7: `right(a)` is `rotate(-a)`, `left(a)` is `rotate(a)` (rotation is
purely additive on the heading), and on every reachable canvas `left(a)`
followed by `right(a)` restores the canvas — in particular the heading —
exactly, for every angle `a`. -/
theorem left_right_restores_heading {α : Type} [LinearOrderedField α] (T : Trig α)
    (cmds : List (Cmd α)) (c : Canvas α) (a : α) (h : runCmds T Canvas.new cmds = some c) :
    execCmd T c (Cmd.turnRight a) = c.rotate (-a) ∧
    execCmd T c (Cmd.turnLeft a) = c.rotate a ∧
    runCmds T c [Cmd.turnLeft a, Cmd.turnRight a] = some c := by
  obtain ⟨hs, hp⟩ := reachable_inv T cmds c h
  refine ⟨rfl, rfl, ?_⟩
  obtain ⟨cs, cp⟩ := c
  rcases cs with _ | ⟨s, rest⟩
  · exact absurd rfl hs
  obtain ⟨pos, ang, pen⟩ := s
  have hang : ang + a + -a = ang := by ring
  simp [runCmds, execCmd, Canvas.rotate, Canvas.modifyTop, hang]

/-- Witness for C7 at the fresh canvas with angle 5. -/
theorem left_right_restores_heading_witness :
    execCmd ratTrig (Canvas.new : Canvas ℚ) (Cmd.turnRight 5)
        = Canvas.rotate Canvas.new (-5) ∧
    execCmd ratTrig (Canvas.new : Canvas ℚ) (Cmd.turnLeft 5)
        = Canvas.rotate Canvas.new 5 ∧
    runCmds ratTrig (Canvas.new : Canvas ℚ) [Cmd.turnLeft 5, Cmd.turnRight 5]
        = some Canvas.new :=
  left_right_restores_heading ratTrig [] Canvas.new 5 rfl

/-- C8: `goto(q)` sets the current position to `q`, leaves heading and pen
state untouched, and only relocates the path anchor via the move-or-line
policy: it never appends a drawn line segment to any path (the total segment
count is preserved and every multi-point path is kept as is), regardless of
the pen state. -/
theorem goto_teleports {α : Type} [LinearOrderedField α] (c : Canvas α) (q : Position α)
    (c' : Canvas α) (h : c.goto q = some c') :
    (∃ s rest, c.states = s :: rest ∧ c'.states = { s with pos := q } :: rest ∧
        Canvas.move_to { c with states := { s with pos := q } :: rest } q = some c') ∧
    segCount c'.paths = segCount c.paths ∧
    ∀ p ∈ c'.paths, 2 ≤ p.length → p ∈ c.paths := by
  obtain ⟨cs, cp⟩ := c
  rcases cs with _ | ⟨s, rest⟩
  · simp [Canvas.goto, Canvas.modifyTop] at h
  simp only [Canvas.goto, Canvas.modifyTop, Option.some_bind] at h
  rcases cp with _ | ⟨p, ps⟩
  · simp only [Canvas.move_to] at h
    cases h
    refine ⟨⟨s, rest, rfl, rfl, by simp [Canvas.move_to]⟩, by simp [segCount], ?_⟩
    intro r hr hlen
    simp at hr
    simp [hr] at hlen
  · rcases p with _ | ⟨x, t⟩
    · simp [Canvas.move_to] at h
    rcases t with _ | ⟨y, t⟩
    · simp only [Canvas.move_to, List.length_cons, List.length_nil] at h
      rw [if_neg (by simp)] at h
      cases h
      refine ⟨⟨s, rest, rfl, rfl, ?_⟩, by simp [segCount], ?_⟩
      · simp only [Canvas.move_to, List.length_cons, List.length_nil]
        rw [if_neg (by simp)]
      · intro r hr hlen
        simp only [List.mem_cons] at hr
        rcases hr with rfl | hr
        · simp at hlen
        · exact List.mem_cons_of_mem _ hr
    · simp only [Canvas.move_to, List.length_cons] at h
      rw [if_pos (by simp)] at h
      cases h
      refine ⟨⟨s, rest, rfl, rfl, ?_⟩, by simp [segCount], ?_⟩
      · simp only [Canvas.move_to, List.length_cons]
        rw [if_pos (by simp)]
      · intro r hr hlen
        simp only [List.mem_cons] at hr
        rcases hr with rfl | hr
        · simp at hlen
        · exact List.mem_cons.mpr hr

/-- Witness for C8: `goto (3, 3)` on the fresh canvas. -/
theorem goto_teleports_witness :
    (∃ s rest, (Canvas.new : Canvas ℚ).states = s :: rest ∧
        (({ states := [{ pos := ⟨3, 3⟩, angle := 0, pendown := true }],
            paths := [[⟨3, 3⟩]] } : Canvas ℚ)).states = { s with pos := ⟨3, 3⟩ } :: rest ∧
        Canvas.move_to { (Canvas.new : Canvas ℚ) with
            states := { s with pos := (⟨3, 3⟩ : Position ℚ) } :: rest } ⟨3, 3⟩
          = some ({ states := [{ pos := ⟨3, 3⟩, angle := 0, pendown := true }],
                    paths := [[⟨3, 3⟩]] } : Canvas ℚ)) ∧
    segCount (({ states := [{ pos := ⟨3, 3⟩, angle := 0, pendown := true }],
                 paths := [[⟨3, 3⟩]] } : Canvas ℚ)).paths
      = segCount (Canvas.new : Canvas ℚ).paths ∧
    ∀ p ∈ (({ states := [{ pos := ⟨3, 3⟩, angle := 0, pendown := true }],
              paths := [[⟨3, 3⟩]] } : Canvas ℚ)).paths,
      2 ≤ p.length → p ∈ (Canvas.new : Canvas ℚ).paths :=
  goto_teleports (Canvas.new : Canvas ℚ) ⟨3, 3⟩
    ({ states := [{ pos := ⟨3, 3⟩, angle := 0, pendown := true }],
       paths := [[⟨3, 3⟩]] } : Canvas ℚ) (by decide)

/-- Counterexample to C2 as stated: after `pen_up(); forward(1)` from a fresh
canvas (heading 0, where real sine/cosine agree with `ratTrig`: `sin 0 = 0`,
`cos 0 = 1`), the position moves to `(0, 1)` but the path list is left
unchanged at `[[(0, 0)]]` — whereas an actual pen-up relocation to the new
position would have rewritten the anchor to `[[(0, 1)]]`. -/
theorem forward_penup_no_relocation_cex :
    (runCmds ratTrig (Canvas.new : Canvas ℚ) [Cmd.penUp, Cmd.fwd 1]).map
        (fun c => (c.current_state.map (·.pos), c.paths))
      = some (some ⟨0, 1⟩, [[⟨0, 0⟩]]) ∧
    ((Canvas.pen_up (Canvas.new : Canvas ℚ)).bind
        (fun c => c.move_to ⟨0, 1⟩)).map Canvas.paths = some [[⟨0, 1⟩]] ∧
    ([[(⟨0, 0⟩ : Position ℚ)]] : List (List (Position ℚ))) ≠ [[⟨0, 1⟩]] := by
  refine ⟨?_, ?_, by decide⟩
  · simp [runCmds, execCmd, Canvas.pen_up, Canvas.forward, Canvas.direction,
          Canvas.current_state, Canvas.modifyTop, Canvas.new, Position.origin,
          degToRad, ratTrig, Canvas.line_to]
  · simp [Canvas.pen_up, Canvas.move_to, Canvas.modifyTop, Canvas.new, Position.origin]

/-- C2 (amended): `forward(d)` updates the position unconditionally to
`current + (-sin(heading), cos(heading)) * d` (heading converted to radians);
with the pen down the destination is appended to the current path as a drawn
segment, and with the pen up the path list is left completely untouched (the
anchor relocation happens only later, when `pen_down`/`move_forward`/`goto`/
`pop` run the move-or-line policy). -/
theorem forward_spec {α : Type} [LinearOrderedField α] (T : Trig α) (c : Canvas α) (d : α)
    (c' : Canvas α) (h : c.forward T d = some c') :
    ∃ s rest, c.states = s :: rest ∧
      c'.states = { s with pos := ⟨s.pos.x + -T.sin (degToRad T s.angle) * d,
                                   s.pos.y + T.cos (degToRad T s.angle) * d⟩ } :: rest ∧
      (s.pendown = true → ∃ p ps, c.paths = p :: ps ∧
          c'.paths = (p ++ [⟨s.pos.x + -T.sin (degToRad T s.angle) * d,
                             s.pos.y + T.cos (degToRad T s.angle) * d⟩]) :: ps) ∧
      (s.pendown = false → c'.paths = c.paths) := by
  obtain ⟨cs, cp⟩ := c
  rcases cs with _ | ⟨s, rest⟩
  · simp [Canvas.forward, Canvas.direction, Canvas.current_state] at h
  simp only [Canvas.forward, Canvas.direction, Canvas.current_state, List.head?_cons,
    Option.map_some', Option.some_bind] at h
  cases hpen : s.pendown
  · rw [hpen] at h
    simp only [Bool.false_eq_true, if_false, Option.some_bind, Canvas.modifyTop] at h
    cases h
    exact ⟨s, rest, rfl, rfl, by simp [hpen], fun _ => rfl⟩
  · rw [hpen] at h
    simp only [if_true, Canvas.line_to] at h
    rcases cp with _ | ⟨p, ps⟩
    · simp at h
    simp only [Option.some_bind, Canvas.modifyTop] at h
    cases h
    exact ⟨s, rest, rfl, rfl, fun _ => ⟨p, ps, rfl, rfl⟩, by simp [hpen]⟩

/-- Witness for the amended C2: `forward(2)` on the fresh canvas draws the
segment to `(0, 2)`. -/
theorem forward_spec_witness :
    ∃ s rest, (Canvas.new : Canvas ℚ).states = s :: rest ∧
      Canvas.states ({ states := [{ pos := ⟨0, 2⟩, angle := 0, pendown := true }],
                       paths := [[⟨0, 0⟩, ⟨0, 2⟩]] } : Canvas ℚ)
        = { s with pos := ⟨s.pos.x + -ratTrig.sin (degToRad ratTrig s.angle) * 2,
                           s.pos.y + ratTrig.cos (degToRad ratTrig s.angle) * 2⟩ } :: rest ∧
      (s.pendown = true → ∃ p ps, (Canvas.new : Canvas ℚ).paths = p :: ps ∧
          Canvas.paths ({ states := [{ pos := ⟨0, 2⟩, angle := 0, pendown := true }],
                          paths := [[⟨0, 0⟩, ⟨0, 2⟩]] } : Canvas ℚ)
            = (p ++ [⟨s.pos.x + -ratTrig.sin (degToRad ratTrig s.angle) * 2,
                      s.pos.y + ratTrig.cos (degToRad ratTrig s.angle) * 2⟩]) :: ps) ∧
      (s.pendown = false →
          Canvas.paths ({ states := [{ pos := ⟨0, 2⟩, angle := 0, pendown := true }],
                          paths := [[⟨0, 0⟩, ⟨0, 2⟩]] } : Canvas ℚ)
            = (Canvas.new : Canvas ℚ).paths) :=
  forward_spec ratTrig Canvas.new 2
    ({ states := [{ pos := ⟨0, 2⟩, angle := 0, pendown := true }],
       paths := [[⟨0, 0⟩, ⟨0, 2⟩]] } : Canvas ℚ)
    (by simp [Canvas.forward, Canvas.direction, Canvas.current_state, Canvas.line_to,
              Canvas.modifyTop, Canvas.new, Position.origin, degToRad, ratTrig])

/-- Counterexample to C3 as stated: the fresh canvas has no path with 2 or
more points, yet both serializers emit one stroke primitive (for its
single-point initial path), so single-point paths do not contribute
nothing. -/
theorem single_point_path_emits_cex :
    (Canvas.save_svg (Canvas.new : Canvas ℚ)).map (fun d => d.pathElems.length)
      = some 1 ∧
    (Canvas.save_eps (Canvas.new : Canvas ℚ)).map (fun d => d.strokes.length)
      = some 1 ∧
    ((Canvas.new : Canvas ℚ).paths.filter fun p => 2 ≤ p.length) = [] := by
  refine ⟨?_, ?_, by decide⟩
  · simp [Canvas.save_svg, Canvas.new, computeBounds, allPositions, addPosition,
          Position.origin, boundsWidth, boundsHeight, svgElem, Position.min, Position.max]
  · simp [Canvas.save_eps, Canvas.new, computeBounds, allPositions, addPosition,
          Position.origin, boundsWidth, boundsHeight, epsStroke, Position.min, Position.max]

/-- C3 (amended): both serializers emit exactly one stroke primitive per path
with at least one point (empty paths, which never arise, would emit nothing);
a path of `n ≥ 1` points yields a primitive with `n - 1` line commands, so a
single-point path yields a degenerate primitive (`M`/`moveto` only, no
`L`/`lineto`) rather than nothing. -/
theorem serializer_stroke_primitives {α : Type} [LinearOrderedField α]
    (c : Canvas α) (dS : SvgDoc α) (dE : EpsDoc α)
    (hS : c.save_svg = some dS) (hE : c.save_eps = some dE) :
    dS.pathElems.length = nonemptyCount c.paths ∧
    dE.strokes.length = nonemptyCount c.paths ∧
    (∀ pr ∈ dS.pathElems, ∃ p ∈ c.paths, p ≠ [] ∧ pr.2.length + 1 = p.length) ∧
    (∀ pr ∈ dE.strokes, ∃ p ∈ c.paths, p ≠ [] ∧ pr.2.length + 1 = p.length) := by
  have hSe : dS.pathElems = c.paths.reverse.filterMap svgElem := by
    unfold Canvas.save_svg at hS
    split at hS
    · cases hS
    · cases hS; rfl
  have hEe : dE.strokes = c.paths.reverse.filterMap epsStroke := by
    unfold Canvas.save_eps at hE
    split at hE
    · cases hE
    · cases hE; rfl
  refine ⟨?_, ?_, ?_, ?_⟩
  · rw [hSe, length_filterMap_svgElem, nonemptyCount_reverse]
  · rw [hEe, length_filterMap_epsStroke, nonemptyCount_reverse]
  · intro pr hpr
    rw [hSe] at hpr
    obtain ⟨p, hp, hfp⟩ := List.mem_filterMap.mp hpr
    rcases p with _ | ⟨x, t⟩
    · simp [svgElem] at hfp
    refine ⟨x :: t, List.mem_reverse.mp hp, by simp, ?_⟩
    simp only [svgElem] at hfp
    obtain rfl := Option.some.inj hfp
    simp
  · intro pr hpr
    rw [hEe] at hpr
    obtain ⟨p, hp, hfp⟩ := List.mem_filterMap.mp hpr
    rcases p with _ | ⟨x, t⟩
    · simp [epsStroke] at hfp
    refine ⟨x :: t, List.mem_reverse.mp hp, by simp, ?_⟩
    simp only [epsStroke] at hfp
    obtain rfl := Option.some.inj hfp
    simp

/-- Witness for the amended C3 at the fresh canvas: one primitive for the one
(single-point) path, with zero line commands. -/
theorem serializer_stroke_primitives_witness :
    (SvgDoc.pathElems
        ({ viewBox := (-10, -10, 120, 120), strokeWidth := 3/25,
           pathElems := [(⟨0, 0⟩, [])] } : SvgDoc ℚ)).length
        = nonemptyCount (Canvas.new : Canvas ℚ).paths ∧
    (EpsDoc.strokes
        ({ boundingBox := (-10, -10, 10, 10), strokeWidth := 3/25,
           strokes := [(⟨0, 0⟩, [])] } : EpsDoc ℚ)).length
        = nonemptyCount (Canvas.new : Canvas ℚ).paths ∧
    (∀ pr ∈ SvgDoc.pathElems
        ({ viewBox := (-10, -10, 120, 120), strokeWidth := 3/25,
           pathElems := [(⟨0, 0⟩, [])] } : SvgDoc ℚ),
      ∃ p ∈ (Canvas.new : Canvas ℚ).paths, p ≠ [] ∧ pr.2.length + 1 = p.length) ∧
    (∀ pr ∈ EpsDoc.strokes
        ({ boundingBox := (-10, -10, 10, 10), strokeWidth := 3/25,
           strokes := [(⟨0, 0⟩, [])] } : EpsDoc ℚ),
      ∃ p ∈ (Canvas.new : Canvas ℚ).paths, p ≠ [] ∧ pr.2.length + 1 = p.length) :=
  serializer_stroke_primitives Canvas.new
    ({ viewBox := (-10, -10, 120, 120), strokeWidth := 3/25,
       pathElems := [(⟨0, 0⟩, [])] } : SvgDoc ℚ)
    ({ boundingBox := (-10, -10, 10, 10), strokeWidth := 3/25,
       strokes := [(⟨0, 0⟩, [])] } : EpsDoc ℚ)
    (by simp [Canvas.save_svg, Canvas.new, computeBounds, allPositions, addPosition,
              Position.origin, boundsWidth, boundsHeight, svgElem, Position.min,
              Position.max]
        norm_num)
    (by simp [Canvas.save_eps, Canvas.new, computeBounds, allPositions, addPosition,
              Position.origin, boundsWidth, boundsHeight, epsStroke, Position.min,
              Position.max]
        norm_num)

/-- Counterexample to C4 as stated: the fresh canvas does not serialize with
zero stroke paths — EPS emits one (degenerate) `newpath … stroke` group —
and the EPS `%%BoundingBox` spans only 20 units, not the padded 100×100
default viewport (which would be 120). -/
theorem empty_canvas_cex :
    (Canvas.save_eps (Canvas.new : Canvas ℚ)).map
        (fun d => (d.boundingBox, d.strokes.length)) = some ((-10, -10, 10, 10), 1) ∧
    (10 : ℚ) - (-10) ≠ (1 + 2 * (1 / 10)) * 100 := by
  refine ⟨?_, by norm_num⟩
  simp [Canvas.save_eps, Canvas.new, computeBounds, allPositions, addPosition,
        Position.origin, boundsWidth, boundsHeight, epsStroke, Position.min, Position.max]
  norm_num

/-- C4 (amended): the fresh canvas serializes to a minimal document: the SVG
viewBox is the 10%-padded default minimum viewport `-10 -10 120 120`, while
the EPS `%%BoundingBox` is `-10 -10 10 10` (the degenerate point extent plus
10% of the clamped 100-unit size per side); both use stroke width
`1.2 * 100 / 1000 = 3/25`, and each emits exactly one degenerate stroke
primitive for the initial single-point path (a moveto/`M` at the origin with
no line commands) rather than zero stroke paths. -/
theorem empty_canvas_serialization :
    Canvas.save_svg (Canvas.new : Canvas ℚ)
      = some { viewBox := (-10, -10, 120, 120), strokeWidth := 3/25,
               pathElems := [(⟨0, 0⟩, [])] } ∧
    Canvas.save_eps (Canvas.new : Canvas ℚ)
      = some { boundingBox := (-10, -10, 10, 10), strokeWidth := 3/25,
               strokes := [(⟨0, 0⟩, [])] } := by
  constructor
  · simp [Canvas.save_svg, Canvas.new, computeBounds, allPositions, addPosition,
          Position.origin, boundsWidth, boundsHeight, svgElem, Position.min, Position.max]
    norm_num
  · simp [Canvas.save_eps, Canvas.new, computeBounds, allPositions, addPosition,
          Position.origin, boundsWidth, boundsHeight, epsStroke, Position.min, Position.max]
    norm_num

/-- Counterexample to C9 as stated: for the fresh canvas the EPS bounds are
`((0,0), (0,0))`, so the claimed emitted viewport size `1.2 * max(width, 100)
= 120` differs from the actual `%%BoundingBox` extent `10 - (-10) = 20`: the
EPS serializer pads the raw point extent, not the clamped size. -/
theorem eps_viewport_cex :
    (Canvas.save_eps (Canvas.new : Canvas ℚ)).map (fun d => d.boundingBox)
      = some (-10, -10, 10, 10) ∧
    computeBounds (allPositions 1 1 (Canvas.new : Canvas ℚ).paths.reverse)
      = some (⟨0, 0⟩, ⟨0, 0⟩) ∧
    (10 : ℚ) - (-10)
      ≠ (1 + 2 * (1 / 10)) *
          Max.max (boundsWidth ((⟨0, 0⟩, ⟨0, 0⟩) : Position ℚ × Position ℚ)) 100 := by
  refine ⟨?_, ?_, ?_⟩
  · simp [Canvas.save_eps, Canvas.new, computeBounds, allPositions, addPosition,
          Position.origin, boundsWidth, boundsHeight, epsStroke, Position.min, Position.max]
    norm_num
  · simp [Canvas.new, computeBounds, allPositions, addPosition, Position.origin]
  · simp [boundsWidth]
    norm_num

/-- C9 (amended): both serializers clamp width and height to the 100-unit
minimum and use stroke width `1.2 * max(width, height) / 1000`; the SVG
viewBox is the 10%-padded corner with total size `1.2 * size`, while the EPS
`%%BoundingBox` pads each side of the raw extent by `0.1 * size`, so its
emitted size is `extent + 0.2 * size`, which equals `1.2 * size` exactly when
the 100-unit minimum is not binding. -/
theorem viewport_derivation {α : Type} [LinearOrderedField α] (c : Canvas α)
    (dS : SvgDoc α) (dE : EpsDoc α)
    (hS : c.save_svg = some dS) (hE : c.save_eps = some dE) :
    (∃ b, computeBounds (allPositions 1 (-1) c.paths.reverse) = some b ∧
      dS.viewBox = (b.1.x - (1 / 10) * Max.max (boundsWidth b) 100,
                    b.1.y - (1 / 10) * Max.max (boundsHeight b) 100,
                    (1 + 2 * (1 / 10)) * Max.max (boundsWidth b) 100,
                    (1 + 2 * (1 / 10)) * Max.max (boundsHeight b) 100) ∧
      dS.strokeWidth = (1 + 2 * (1 / 10)) *
          Max.max (Max.max (boundsWidth b) 100) (Max.max (boundsHeight b) 100) / 1000) ∧
    (∃ b, computeBounds (allPositions 1 1 c.paths.reverse) = some b ∧
      dE.boundingBox = (b.1.x - (1 / 10) * Max.max (boundsWidth b) 100,
                        b.1.y - (1 / 10) * Max.max (boundsHeight b) 100,
                        b.2.x + (1 / 10) * Max.max (boundsWidth b) 100,
                        b.2.y + (1 / 10) * Max.max (boundsHeight b) 100) ∧
      dE.strokeWidth = (1 + 2 * (1 / 10)) *
          Max.max (Max.max (boundsWidth b) 100) (Max.max (boundsHeight b) 100) / 1000 ∧
      dE.boundingBox.2.2.1 - dE.boundingBox.1
        = boundsWidth b + 2 * ((1 / 10) * Max.max (boundsWidth b) 100) ∧
      (100 ≤ boundsWidth b →
        dE.boundingBox.2.2.1 - dE.boundingBox.1
          = (1 + 2 * (1 / 10)) * Max.max (boundsWidth b) 100)) := by
  constructor
  · unfold Canvas.save_svg at hS
    split at hS
    · cases hS
    · rename_i b heq
      cases hS
      exact ⟨b, heq, rfl, rfl⟩
  · unfold Canvas.save_eps at hE
    split at hE
    · cases hE
    · rename_i b heq
      cases hE
      have hx : b.1.x ≤ b.2.x := (computeBounds_ordered _ b heq).1
      have habs : boundsWidth b = b.2.x - b.1.x := abs_of_nonneg (sub_nonneg.mpr hx)
      refine ⟨b, heq, rfl, rfl, ?_, ?_⟩
      · rw [habs]
        ring
      · intro h100
        rw [max_eq_left h100, habs]
        ring

/-- Witness for the amended C9 at the fresh canvas. -/
theorem viewport_derivation_witness :
    (∃ b, computeBounds (allPositions 1 (-1) (Canvas.new : Canvas ℚ).paths.reverse)
        = some b ∧
      SvgDoc.viewBox
          ({ viewBox := (-10, -10, 120, 120), strokeWidth := 3/25,
             pathElems := [(⟨0, 0⟩, [])] } : SvgDoc ℚ)
        = (b.1.x - (1 / 10) * Max.max (boundsWidth b) 100,
           b.1.y - (1 / 10) * Max.max (boundsHeight b) 100,
           (1 + 2 * (1 / 10)) * Max.max (boundsWidth b) 100,
           (1 + 2 * (1 / 10)) * Max.max (boundsHeight b) 100) ∧
      SvgDoc.strokeWidth
          ({ viewBox := (-10, -10, 120, 120), strokeWidth := 3/25,
             pathElems := [(⟨0, 0⟩, [])] } : SvgDoc ℚ)
        = (1 + 2 * (1 / 10)) *
            Max.max (Max.max (boundsWidth b) 100) (Max.max (boundsHeight b) 100) / 1000) ∧
    (∃ b, computeBounds (allPositions 1 1 (Canvas.new : Canvas ℚ).paths.reverse)
        = some b ∧
      EpsDoc.boundingBox
          ({ boundingBox := (-10, -10, 10, 10), strokeWidth := 3/25,
             strokes := [(⟨0, 0⟩, [])] } : EpsDoc ℚ)
        = (b.1.x - (1 / 10) * Max.max (boundsWidth b) 100,
           b.1.y - (1 / 10) * Max.max (boundsHeight b) 100,
           b.2.x + (1 / 10) * Max.max (boundsWidth b) 100,
           b.2.y + (1 / 10) * Max.max (boundsHeight b) 100) ∧
      EpsDoc.strokeWidth
          ({ boundingBox := (-10, -10, 10, 10), strokeWidth := 3/25,
             strokes := [(⟨0, 0⟩, [])] } : EpsDoc ℚ)
        = (1 + 2 * (1 / 10)) *
            Max.max (Max.max (boundsWidth b) 100) (Max.max (boundsHeight b) 100) / 1000 ∧
      (EpsDoc.boundingBox
          ({ boundingBox := (-10, -10, 10, 10), strokeWidth := 3/25,
             strokes := [(⟨0, 0⟩, [])] } : EpsDoc ℚ)).2.2.1 -
        (EpsDoc.boundingBox
          ({ boundingBox := (-10, -10, 10, 10), strokeWidth := 3/25,
             strokes := [(⟨0, 0⟩, [])] } : EpsDoc ℚ)).1
        = boundsWidth b + 2 * ((1 / 10) * Max.max (boundsWidth b) 100) ∧
      (100 ≤ boundsWidth b →
        (EpsDoc.boundingBox
            ({ boundingBox := (-10, -10, 10, 10), strokeWidth := 3/25,
               strokes := [(⟨0, 0⟩, [])] } : EpsDoc ℚ)).2.2.1 -
          (EpsDoc.boundingBox
            ({ boundingBox := (-10, -10, 10, 10), strokeWidth := 3/25,
               strokes := [(⟨0, 0⟩, [])] } : EpsDoc ℚ)).1
          = (1 + 2 * (1 / 10)) * Max.max (boundsWidth b) 100)) :=
  viewport_derivation Canvas.new
    ({ viewBox := (-10, -10, 120, 120), strokeWidth := 3/25,
       pathElems := [(⟨0, 0⟩, [])] } : SvgDoc ℚ)
    ({ boundingBox := (-10, -10, 10, 10), strokeWidth := 3/25,
       strokes := [(⟨0, 0⟩, [])] } : EpsDoc ℚ)
    (by simp [Canvas.save_svg, Canvas.new, computeBounds, allPositions, addPosition,
              Position.origin, boundsWidth, boundsHeight, svgElem, Position.min,
              Position.max]
        norm_num)
    (by simp [Canvas.save_eps, Canvas.new, computeBounds, allPositions, addPosition,
              Position.origin, boundsWidth, boundsHeight, epsStroke, Position.min,
              Position.max]
        norm_num)

/-- C10: every canvas reachable from `Canvas::new` by a command sequence that
never pops the base state (any popping run panics, i.e. yields `none`) has a
nonempty path list in which every path holds at least one point; consequently
`line_to`'s append to the last path never panics and both serializers
succeed with one primitive per path (`split_first` succeeds on every path, so
none is skipped). -/
theorem reachable_canvas_invariant {α : Type} [LinearOrderedField α] (T : Trig α)
    (cmds : List (Cmd α)) (c : Canvas α) (h : runCmds T Canvas.new cmds = some c) :
    c.paths ≠ [] ∧ (∀ p ∈ c.paths, p ≠ []) ∧
    (∀ q, c.line_to q ≠ none) ∧
    (∃ dS, c.save_svg = some dS ∧ dS.pathElems.length = c.paths.length) ∧
    (∃ dE, c.save_eps = some dE ∧ dE.strokes.length = c.paths.length) := by
  obtain ⟨hs, hpne, hall⟩ := reachable_inv T cmds c h
  have hmem : ∃ p ∈ c.paths.reverse, p ≠ [] := by
    rcases hp : c.paths with _ | ⟨p, ps⟩
    · exact absurd hp hpne
    · exact ⟨p, List.mem_reverse.mpr (by simp [hp]), hall p (by simp [hp])⟩
  refine ⟨hpne, hall, ?_, ?_, ?_⟩
  · intro q hq
    rcases hp : c.paths with _ | ⟨p, ps⟩
    · exact hpne hp
    · simp [Canvas.line_to, hp] at hq
  · have hex := allPositions_ne_nil 1 (-1) c.paths.reverse hmem
    have hb := computeBounds_isSome _ hex
    rcases hcb : computeBounds (allPositions 1 (-1) c.paths.reverse) with _ | b
    · rw [hcb] at hb
      simp at hb
    have hdoc : c.save_svg = some
        { viewBox := (b.1.x - (1 / 10) * Max.max (boundsWidth b) 100,
                      b.1.y - (1 / 10) * Max.max (boundsHeight b) 100,
                      (1 + 2 * (1 / 10)) * Max.max (boundsWidth b) 100,
                      (1 + 2 * (1 / 10)) * Max.max (boundsHeight b) 100),
          strokeWidth := (1 + 2 * (1 / 10)) *
              Max.max (Max.max (boundsWidth b) 100) (Max.max (boundsHeight b) 100) / 1000,
          pathElems := c.paths.reverse.filterMap svgElem } := by
      unfold Canvas.save_svg
      rw [hcb]
    refine ⟨_, hdoc, ?_⟩
    show (c.paths.reverse.filterMap svgElem).length = c.paths.length
    rw [length_filterMap_svgElem_full _ fun r hr => hall r (List.mem_reverse.mp hr),
        List.length_reverse]
  · have hex := allPositions_ne_nil 1 1 c.paths.reverse hmem
    have hb := computeBounds_isSome _ hex
    rcases hcb : computeBounds (allPositions 1 1 c.paths.reverse) with _ | b
    · rw [hcb] at hb
      simp at hb
    have hdoc : c.save_eps = some
        { boundingBox := (b.1.x - (1 / 10) * Max.max (boundsWidth b) 100,
                          b.1.y - (1 / 10) * Max.max (boundsHeight b) 100,
                          b.2.x + (1 / 10) * Max.max (boundsWidth b) 100,
                          b.2.y + (1 / 10) * Max.max (boundsHeight b) 100),
          strokeWidth := (1 + 2 * (1 / 10)) *
              Max.max (Max.max (boundsWidth b) 100) (Max.max (boundsHeight b) 100) / 1000,
          strokes := c.paths.reverse.filterMap epsStroke } := by
      unfold Canvas.save_eps
      rw [hcb]
    refine ⟨_, hdoc, ?_⟩
    show (c.paths.reverse.filterMap epsStroke).length = c.paths.length
    rw [length_filterMap_epsStroke_full _ fun r hr => hall r (List.mem_reverse.mp hr),
        List.length_reverse]

/-- Witness for C10 at the empty command sequence. -/
theorem reachable_canvas_invariant_witness :
    (Canvas.new : Canvas ℚ).paths ≠ [] ∧
    (∀ p ∈ (Canvas.new : Canvas ℚ).paths, p ≠ []) ∧
    (∀ q, (Canvas.new : Canvas ℚ).line_to q ≠ none) ∧
    (∃ dS, (Canvas.new : Canvas ℚ).save_svg = some dS ∧
        dS.pathElems.length = (Canvas.new : Canvas ℚ).paths.length) ∧
    (∃ dE, (Canvas.new : Canvas ℚ).save_eps = some dE ∧
        dE.strokes.length = (Canvas.new : Canvas ℚ).paths.length) :=
  reachable_canvas_invariant ratTrig [] Canvas.new rfl
